import Mathlib

/-
  Shallow embedding of the cTCP connection engine (src/ctcp.c).

  Machine integers are modelled as Nat with explicit reductions modulo
  2^8 / 2^16 / 2^32 exactly where the C code performs arithmetic on
  uint8_t / uint16_t / uint32_t fields.  Byte buffers are lists of Nat.

  The host capabilities (conn_input, conn_output, conn_bufspace,
  conn_send) are modelled as explicit parameters: a list of read events
  for the byte source, a list of successive bufspace answers for the
  sink, and emitted datagrams are accumulated in an output list.  The
  reference sink never short-writes (spec section 4.4.7), so conn_output
  is modelled as writing the full requested count; the engine checks the
  available space before each write.

  The two empty busy-wait loops in the source, such as
  while(state->rx_state->length > 0); in ctcp_read and in
  ctcp_receive_fin_with_no_ack, have a constant condition: the loop body
  is empty and no other thread exists (spec section 5), so they loop
  forever exactly when the condition holds on entry.  Handlers are
  therefore modelled with an explicit divergence outcome.
-/

namespace CTCP

/-- Wire segment record, fields as in the spec wire format: seqno, ackno,
len, cksum, flags, window, then payload bytes. -/
structure Segment where
  seqno : Nat
  ackno : Nat
  len : Nat
  cksum : Nat
  flags : Nat
  window : Nat
  data : List Nat
  deriving Repr, DecidableEq

/-- Modelled from the spec: FIN flag bit (bit 0x1), inherited from the
host header ctcp_sys.h which is not under src/. -/
def FINc : Nat := 1

/-- Modelled from the spec: ACK flag bit (bit 0x2), inherited from the
host header ctcp_sys.h which is not under src/. -/
def ACKc : Nat := 2

/-- Modelled from the spec: maximum payload bytes per segment,
MAX_SEG_DATA_SIZE from ctcp_sys.h which is not under src/. -/
def MAX_SEG_DATA_SIZE : Nat := 1000

/-- Modelled from the spec: sizeof(ctcp_segment_t), the header size.  The
wire fields total 18 bytes; the C struct is padded to 20.  The claims do
not depend on the exact value. -/
def hdrSize : Nat := 20

def M8 : Nat := 256

def M16 : Nat := 65536

def M32 : Nat := 4294967296

/-- Subtraction on a uint16 value, with wrap-around as in C. -/
def wrapSub16 (a b : Nat) : Nat := (a % M16 + M16 - b % M16) % M16

/-- Big-endian encoding of a 16-bit value. -/
def be16 (n : Nat) : List Nat := [n / 256 % 256, n % 256]

/-- Big-endian encoding of a 32-bit value. -/
def be32 (n : Nat) : List Nat :=
  [n / 16777216 % 256, n / 65536 % 256, n / 256 % 256, n % 256]

/-- Bytes of a segment as laid out in memory and on the wire: the header
fields in network byte order, two padding bytes, then the payload. -/
def serializeSegment (s : Segment) : List Nat :=
  be32 s.seqno ++ be32 s.ackno ++ be16 s.len ++ be16 s.cksum ++
    be32 s.flags ++ be16 s.window ++ [0, 0] ++ s.data

/-- Group a byte list into big-endian 16-bit words, padding a trailing
odd byte with zero. -/
def words16 : List Nat → List Nat
  | [] => []
  | [b] => [(b % 256) * 256]
  | b0 :: b1 :: rest => ((b0 % 256) * 256 + b1 % 256) :: words16 rest

/-- Ones-complement addition of two 16-bit values (end-around carry). -/
def addOnes (a b : Nat) : Nat :=
  (a + b) % M16 + (a + b) / M16

/-- Modelled from the spec: cksum from ctcp_utils.h, which is not under
src/; the 16-bit ones-complement sum over the given bytes, complemented. -/
def cksumBytes (l : List Nat) : Nat :=
  M16 - 1 - (words16 l).foldl addOnes 0

/-- Test of the FIN bit, ntohl(segment->flags) & FIN. -/
def finBit (s : Segment) : Bool := s.flags &&& FINc != 0

/-- Test of the ACK bit, ntohl(segment->flags) & ACK. -/
def ackBit (s : Segment) : Bool := s.flags &&& ACKc != 0

/-- Actual byte count of a received segment, the len argument the host
passes to ctcp_receive. -/
def recvLen (s : Segment) : Nat := hdrSize + s.data.length

/-- Fill in the checksum field: zero it, compute the checksum over the
whole segment, store it; as in ctcp_send_data_segment and
ctcp_send_flags. -/
def withCksum (s : Segment) : Segment :=
  { s with cksum := cksumBytes (serializeSegment { s with cksum := 0 }) }

/-- A segment whose carried checksum equals the checksum recomputed over
its bytes with the cksum field zeroed. -/
def checksumOk (s : Segment) : Prop :=
  cksumBytes (serializeSegment { s with cksum := 0 }) = s.cksum

/-- Connection counters, struct Conn_state. -/
structure Conn_state where
  seqno : Nat
  next_seqno : Nat
  ackno : Nat
  last_ackno : Nat
  send_window : Nat
  send_window_used : Nat
  rcv_window : Nat
  rcv_window_used : Nat
  deriving Repr, DecidableEq

/-- Retransmission timer state, struct ACK_state. -/
structure ACK_state where
  time_out_num : Nat
  counter : Nat
  timer_overflow : Nat
  time_out : Bool
  deriving Repr, DecidableEq

/-- Teardown enumeration, enum Teardown_state. -/
inductive Teardown_state where
  | NO_CLOSE
  | ACTIVE_CLOSE
  | PASSIVE_CLOSE
  deriving Repr, DecidableEq

/-- Send Queue element, struct TX_state; buffer_size is the length of
tx_buffer. -/
structure TX_state where
  segment_next_seqno : Nat
  tx_buffer : List Nat
  deriving Repr, DecidableEq

/-- Receive Queue element, struct RX_state. -/
structure RX_state where
  byte_used : Nat
  byte_left : Nat
  rx_buffer : List Nat
  deriving Repr, DecidableEq

/-- Per-connection engine state, struct ctcp_state (registry links and
the conn handle are host-side and carry no protocol state). -/
structure ctcp_state where
  conn_state : Conn_state
  tx_state : List TX_state
  rx_state : List RX_state
  ack_state : ACK_state
  segment_teardown : Teardown_state
  deriving Repr, DecidableEq

/-- Outcome of one handler invocation: normal completion with the new
state, destruction of the engine (ctcp_destroy), or divergence in one of
the empty busy-wait loops.  Each outcome carries the datagrams emitted
before it was reached. -/
inductive HRes where
  | ok : ctcp_state → List Segment → HRes
  | destroyed : List Segment → HRes
  | diverge : List Segment → HRes
  deriving Repr, DecidableEq

/-- State projection of a normally completed handler run. -/
def okState : HRes → Option ctcp_state
  | HRes.ok st _ => some st
  | _ => none

/-- Datagrams emitted during a handler run. -/
def hresOut : HRes → List Segment
  | HRes.ok _ o => o
  | HRes.destroyed o => o
  | HRes.diverge o => o

/-- True exactly for a run that hangs in a busy-wait loop. -/
def divergesB : HRes → Bool
  | HRes.diverge _ => true
  | _ => false

/-- Advertised window field,
MAX_SEG_DATA_SIZE * ((rcv_window - rcv_window_used) / MAX_SEG_DATA_SIZE),
computed in C int arithmetic and truncated to uint16 by htons. -/
def advertWindow (c : Conn_state) : Nat :=
  (Int.emod
    ((MAX_SEG_DATA_SIZE : Int) *
      (Int.tdiv ((c.rcv_window : Int) - (c.rcv_window_used : Int))
        (MAX_SEG_DATA_SIZE : Int)))
    (M16 : Int)).toNat

/-- Segment built by ctcp_send_flags: header-only, seq = seqno, the given
ackno and flags, the advertised window, and the checksum filled in. -/
def ctcp_send_flags_seg (c : Conn_state) (ackno flags : Nat) : Segment :=
  withCksum
    { seqno := c.seqno, ackno := ackno, len := hdrSize, cksum := 0,
      flags := flags, window := advertWindow c, data := [] }

/-- Data segment built by ctcp_send_data_segment: seq = next_seqno (before
the increment), ack = ackno, len = header + payload, flags = 0, the
advertised window, and the checksum filled in. -/
def ctcp_send_data_seg (c : Conn_state) (buf : List Nat) : Segment :=
  withCksum
    { seqno := c.next_seqno, ackno := c.ackno,
      len := (hdrSize + buf.length) % M16, cksum := 0, flags := 0,
      window := advertWindow c, data := buf }

/-- Walk of the Send Queue in ctcp_send_possible_data_segment: for each
element that still fits the send window, emit a data segment, advance
next_seqno by the payload length, store it into the tag, and add the
payload length to send_window_used; stop at the first element that does
not fit. -/
def sendGo : List TX_state → Conn_state → List TX_state × Conn_state × List Segment
  | [], c => ([], c, [])
  | e :: r, c =>
    if e.tx_buffer.length + c.send_window_used > c.send_window then
      (e :: r, c, [])
    else
      let seg := ctcp_send_data_seg c e.tx_buffer
      let nx := (c.next_seqno + e.tx_buffer.length) % M32
      let c1 := { c with next_seqno := nx,
                         send_window_used := (c.send_window_used + e.tx_buffer.length) % M16 }
      let rest := sendGo r c1
      ({ e with segment_next_seqno := nx } :: rest.1, rest.2.1, seg :: rest.2.2)

/-- ctcp_send_possible_data_segment: reset send_window_used to 0 and
next_seqno to seqno, then walk the queue; the timeout flag is raised by
ctcp_send_data_segment, hence exactly when at least one segment was
emitted. -/
def ctcp_send_possible_data_segment (st : ctcp_state) : ctcp_state × List Segment :=
  let c0 := { st.conn_state with send_window_used := 0,
                                 next_seqno := st.conn_state.seqno }
  let r := sendGo st.tx_state c0
  let ak := if r.2.2.isEmpty then st.ack_state
            else { st.ack_state with time_out := true }
  ({ st with conn_state := r.2.1, tx_state := r.1, ack_state := ak }, r.2.2)

/-- Delivery loop of ctcp_output: query the sink free space; stop when it
is zero or smaller than the byte_left of the head element; otherwise
write the head fully, decrement rcv_window_used, emit an ACK for ackno,
and drop the head. -/
def outLoop : List RX_state → Conn_state → List Nat → List RX_state × Conn_state × List Segment
  | [], c, _ => ([], c, [])
  | e :: r, c, sp =>
    let avai := sp.headD 0
    if avai = 0 ∨ e.byte_left > avai then (e :: r, c, [])
    else
      let c1 := { c with rcv_window_used := wrapSub16 c.rcv_window_used e.byte_left }
      let ackSeg := ctcp_send_flags_seg c1 c1.ackno ACKc
      let rest := outLoop r c1 sp.tail
      (rest.1, rest.2.1, ackSeg :: rest.2.2)

/-- ctcp_output, over the successive conn_bufspace answers sp. -/
def ctcp_output (st : ctcp_state) (sp : List Nat) : ctcp_state × List Segment :=
  let r := outLoop st.rx_state st.conn_state sp
  ({ st with rx_state := r.1, conn_state := r.2.1 }, r.2.2)

/-- ctcp_receive_data_segment: if the payload fits the receive window,
record last_ackno, set ackno to seqno + data length, append a Receive
Queue element and enlarge rcv_window_used; in any case run ctcp_output.
The len argument is the received byte count. -/
def ctcp_receive_data_segment (st : ctcp_state) (seg : Segment) (len : Nat)
    (sp : List Nat) : ctcp_state × List Segment :=
  let dlen := len - hdrSize
  let st1 :=
    if st.conn_state.rcv_window_used + dlen ≤ st.conn_state.rcv_window then
      { st with
        conn_state := { st.conn_state with
          last_ackno := st.conn_state.ackno,
          ackno := (seg.seqno + seg.len - hdrSize) % M32,
          rcv_window_used := (st.conn_state.rcv_window_used + dlen) % M16 },
        rx_state := st.rx_state ++
          [{ byte_used := 0, byte_left := dlen, rx_buffer := seg.data.take dlen }] }
    else st
  ctcp_output st1 sp

/-- ctcp_receive_fin_with_no_ack: update last_ackno and ackno; if not
actively closing, deliver EOF to the sink, ACK, then busy-wait on the
Receive Queue length (divergence when it is non-empty), send a FIN, arm
the timer and enter PASSIVE_CLOSE; if actively closing, ACK and destroy. -/
def ctcp_receive_fin_with_no_ack (st : ctcp_state) (seg : Segment) : HRes :=
  let c1 := { st.conn_state with last_ackno := st.conn_state.ackno,
                                 ackno := (seg.seqno + 1) % M32 }
  let st1 := { st with conn_state := c1 }
  if st1.segment_teardown ≠ Teardown_state.ACTIVE_CLOSE then
    let ackSeg := ctcp_send_flags_seg c1 c1.ackno ACKc
    if st1.rx_state.length > 0 then HRes.diverge [ackSeg]
    else
      let finSeg := ctcp_send_flags_seg c1 c1.ackno FINc
      HRes.ok
        { st1 with ack_state := { st1.ack_state with time_out := true },
                   segment_teardown := Teardown_state.PASSIVE_CLOSE }
        [ackSeg, finSeg]
  else
    HRes.destroyed [ctcp_send_flags_seg c1 c1.ackno ACKc]

/-- Cumulative-acknowledgement drain loop in the ACK_SEG branch of
ctcp_receive: while the acknowledgement covers the head tag and the tag
is positive, advance seqno to the tag, subtract the head payload length
from send_window_used (uint16 arithmetic) and drop the head. -/
def drainAck (A : Nat) : List TX_state → Nat → Nat → List TX_state × Nat × Nat
  | [], q, u => ([], q, u)
  | e :: r, q, u =>
    if A ≥ e.segment_next_seqno ∧ e.segment_next_seqno > 0 then
      drainAck A r e.segment_next_seqno (wrapSub16 u e.tx_buffer.length)
    else (e :: r, q, u)

/-- ACK_SEG branch of ctcp_receive: destroy on PASSIVE_CLOSE; return on
an empty Send Queue; when the acknowledgement covers the front tag, drain
cumulatively, disarm the timer exactly when it equals next_seqno, and
reset counter and time_out_num. -/
def ctcp_receive_ack (st : ctcp_state) (seg : Segment) : HRes :=
  if st.segment_teardown = Teardown_state.PASSIVE_CLOSE then HRes.destroyed []
  else
    match st.tx_state with
    | [] => HRes.ok st []
    | e :: _ =>
      if seg.ackno ≥ e.segment_next_seqno then
        let d := drainAck seg.ackno st.tx_state st.conn_state.seqno
                   st.conn_state.send_window_used
        HRes.ok
          { st with
            conn_state := { st.conn_state with seqno := d.2.1,
                                               send_window_used := d.2.2 },
            tx_state := d.1,
            ack_state := { st.ack_state with
              time_out := if seg.ackno = st.conn_state.next_seqno then false
                          else st.ack_state.time_out,
              counter := 0, time_out_num := 0 } }
          []
      else HRes.ok st []

/-- Duplicate-data test performed first in ctcp_receive: the received
sequence differs from ackno, equals last_ackno, and the ACK bit is
clear. -/
def dupPattern (st : ctcp_state) (seg : Segment) : Prop :=
  seg.seqno ≠ st.conn_state.ackno ∧ seg.seqno = st.conn_state.last_ackno ∧
    ¬ ackBit seg

instance (st : ctcp_state) (seg : Segment) : Decidable (dupPattern st seg) := by
  unfold dupPattern; infer_instance

/-- ctcp_receive: duplicate test, length check, checksum check, then the
segment-type state machine. -/
def ctcp_receive (st : ctcp_state) (seg : Segment) (sp : List Nat) : HRes :=
  if dupPattern st seg then
    HRes.ok st [ctcp_send_flags_seg st.conn_state st.conn_state.last_ackno ACKc]
  else if recvLen seg ≠ seg.len then HRes.ok st []
  else if seg.cksum ≠ cksumBytes (serializeSegment { seg with cksum := 0 }) then
    HRes.ok st []
  else if finBit seg then
    if ackBit seg then
      let c1 := { st.conn_state with ackno := (seg.seqno + 1) % M32 }
      HRes.destroyed [ctcp_send_flags_seg c1 c1.ackno ACKc]
    else ctcp_receive_fin_with_no_ack st seg
  else if ackBit seg then ctcp_receive_ack st seg
  else
    let r := ctcp_receive_data_segment st seg (recvLen seg) sp
    HRes.ok r.1 r.2

/-- Result of one conn_input call: a chunk of bytes (the empty chunk is a
zero read) or end-of-source. -/
inductive ReadEv where
  | bytes : List Nat → ReadEv
  | eof : ReadEv
  deriving Repr, DecidableEq

/-- Bytes of the 14-byte truncation sentinel ###truncate###. -/
def truncSentinel : List Nat :=
  [35, 35, 35, 116, 114, 117, 110, 99, 97, 116, 101, 35, 35, 35]

/-- Read loop of ctcp_read: append each non-empty chunk as a fresh Send
Queue element with tag 0; stop on a zero read or on the truncation
sentinel; on end-of-source, busy-wait on the two queue lengths
(divergence when either is non-empty), then enter ACTIVE_CLOSE, emit a
FIN and arm the timer.  The Bool marks divergence. -/
def readLoop : List ReadEv → ctcp_state → ctcp_state × List Segment × Bool
  | [], st => (st, [], false)
  | ReadEv.bytes b :: r, st =>
    if b.length = 0 then (st, [], false)
    else if b.length > 14 ∧ b.take 14 = truncSentinel then (st, [], false)
    else
      readLoop r
        { st with tx_state := st.tx_state ++ [{ segment_next_seqno := 0, tx_buffer := b }] }
  | ReadEv.eof :: _, st =>
    if st.rx_state.length > 0 then (st, [], true)
    else if st.tx_state.length > 0 then (st, [], true)
    else
      let st1 := { st with segment_teardown := Teardown_state.ACTIVE_CLOSE }
      let finSeg := ctcp_send_flags_seg st1.conn_state st1.conn_state.ackno FINc
      ({ st1 with ack_state := { st1.ack_state with time_out := true } }, [finSeg], false)

/-- ctcp_read: run the read loop over the available conn_input results,
then send as much of the Send Queue as the window allows. -/
def ctcp_read (st : ctcp_state) (reads : List ReadEv) : HRes :=
  let r := readLoop reads st
  if r.2.2 then HRes.diverge r.2.1
  else
    let s := ctcp_send_possible_data_segment r.1
    HRes.ok s.1 (r.2.1 ++ s.2)

/-- One iteration of the registry walk in ctcp_timer for one engine.  The
Bool records whether the iteration ended in the continue of the sixth-
timeout branch, which re-enters the loop without advancing to the next
engine. -/
def timerIter (st : ctcp_state) (sp : List Nat) : ctcp_state × List Segment × Bool :=
  if st.ack_state.time_out then
    let c1 := (st.ack_state.counter + 1) % M8
    if c1 = st.ack_state.timer_overflow then
      let t1 := (st.ack_state.time_out_num + 1) % M8
      if t1 = 6 then
        let finSeg := ctcp_send_flags_seg st.conn_state st.conn_state.ackno FINc
        let ak := { st.ack_state with counter := 0, time_out_num := t1, time_out := true }
        ({ st with ack_state := ak, segment_teardown := Teardown_state.ACTIVE_CLOSE },
          [finSeg], true)
      else if st.segment_teardown = Teardown_state.ACTIVE_CLOSE ∨
              st.segment_teardown = Teardown_state.PASSIVE_CLOSE then
        let finSeg := ctcp_send_flags_seg st.conn_state st.conn_state.last_ackno FINc
        ({ st with ack_state := { st.ack_state with counter := 0, time_out_num := t1 } },
          [finSeg], false)
      else
        let stA := { st with ack_state := { st.ack_state with counter := 0, time_out_num := t1 } }
        let s := ctcp_send_possible_data_segment stA
        (s.1, s.2, false)
    else ({ st with ack_state := { st.ack_state with counter := c1 } }, [], false)
  else
    let s := ctcp_send_possible_data_segment st
    if s.1.rx_state.length > 0 then
      let o := ctcp_output s.1 sp
      (o.1, s.2 ++ o.2, false)
    else (s.1, s.2, false)

/-- Processing of one engine within a single ctcp_timer invocation: one
iteration, plus the extra iteration caused by the continue of the sixth-
timeout branch (which skips the cur_state advance).  A second continue is
impossible in the same tick: the first one leaves time_out_num = 6, and
the extra iteration increments it away from 5. -/
def engineTick (st : ctcp_state) (sp : List Nat) : ctcp_state × List Segment :=
  let r := timerIter st sp
  if r.2.2 then
    let r2 := timerIter r.1 sp
    (r2.1, r.2.1 ++ r2.2.1)
  else (r.1, r.2.1)

/-- ctcp_timer: walk every registered engine. -/
def ctcp_timer : List (ctcp_state × List Nat) → List ctcp_state × List Segment
  | [] => ([], [])
  | (st, sp) :: r =>
    let e := engineTick st sp
    let rest := ctcp_timer r
    (e.1 :: rest.1, e.2 ++ rest.2)

/-- ctcp_init: initial counters seqno = next_seqno = ackno = last_ackno
= 1, empty queues, timer disarmed, timer_overflow the rounded-up quotient
rt_timeout / timer truncated to uint8. -/
def ctcp_init (send_window recv_window rt_timeout timer : Nat) : ctcp_state :=
  { conn_state :=
      { seqno := 1, next_seqno := 1, ackno := 1, last_ackno := 1,
        send_window := send_window, send_window_used := 0,
        rcv_window := recv_window, rcv_window_used := 0 },
    tx_state := [], rx_state := [],
    ack_state :=
      { time_out := false, time_out_num := 0, counter := 0,
        timer_overflow :=
          (if rt_timeout % timer = 0 then rt_timeout / timer
           else rt_timeout / timer + 1) % M8 },
    segment_teardown := Teardown_state.NO_CLOSE }

instance (s : Segment) : Decidable (checksumOk s) := by
  unfold checksumOk; infer_instance

/-- Check of the Send Queue tag shape: the transmitted elements form a
front run whose tags are the running sums q + their payload lengths, and
every element after the first untransmitted (tag 0) element is also
untransmitted. -/
def tagsChain : Nat → List TX_state → Bool
  | _, [] => true
  | q, e :: r =>
    if e.segment_next_seqno = 0 then
      (e :: r).all fun x => x.segment_next_seqno == 0
    else
      (e.segment_next_seqno == q + e.tx_buffer.length) && tagsChain e.segment_next_seqno r

/-- Total payload length of the transmitted front run of the Send
Queue. -/
def sentSum : List TX_state → Nat
  | [] => 0
  | e :: r => if e.segment_next_seqno = 0 then 0 else e.tx_buffer.length + sentSum r

/-- Total undelivered bytes held in the Receive Queue. -/
def rxSum (l : List RX_state) : Nat := (l.map (fun e => e.byte_left)).sum

/-- Consistency invariant of an engine state: the Send Queue tags have
the chain shape, send_window_used is the total payload of the
transmitted front run and is within the send window, rcv_window_used is
the total undelivered byte count of the Receive Queue and is within the
receive window, and both configured windows are uint16 values. -/
def InvS (st : ctcp_state) : Prop :=
  tagsChain st.conn_state.seqno st.tx_state = true ∧
  st.conn_state.send_window_used = sentSum st.tx_state ∧
  st.conn_state.send_window_used ≤ st.conn_state.send_window ∧
  st.conn_state.rcv_window_used = rxSum st.rx_state ∧
  st.conn_state.rcv_window_used ≤ st.conn_state.rcv_window ∧
  st.conn_state.send_window < M16 ∧
  st.conn_state.rcv_window < M16

instance (st : ctcp_state) : Decidable (InvS st) := by
  unfold InvS; infer_instance

/-- Absence of 32-bit sequence wrap-around within one send window. -/
def NoWrap (st : ctcp_state) : Prop :=
  0 < st.conn_state.seqno ∧
  st.conn_state.seqno + st.conn_state.send_window < M32

instance (st : ctcp_state) : Decidable (NoWrap st) := by
  unfold NoWrap; infer_instance

/-- Engine state right after ctcp_init with the configuration of the
spec scenarios: windows 2000, rt_timeout 200 ms, tick 40 ms. -/
def exInit : ctcp_state := ctcp_init 2000 2000 200 40

/-- Read events delivering the 5 bytes of hello and then end-of-source
within one source-readable event. -/
def c1reads : List ReadEv := [ReadEv.bytes [104, 101, 108, 108, 111], ReadEv.eof]

/-- Engine that has acknowledged one 1-byte segment: ackno 2,
last_ackno 1. -/
def c2st : ctcp_state :=
  { exInit with conn_state := { exInit.conn_state with ackno := 2, last_ackno := 1 } }

/-- Corrupted segment: seqno 1 (equal to last_ackno of c2st), no flags,
consistent length field, but a checksum field of 0 which does not match
the data. -/
def c2seg : Segment :=
  { seqno := 1, ackno := 0, len := 21, cksum := 0, flags := 0, window := 0, data := [7] }

/-- Segment whose length field (25) disagrees with its 20 received
bytes. -/
def c2wseg : Segment :=
  { seqno := 1, ackno := 0, len := 25, cksum := 0, flags := 0, window := 0, data := [] }

/-- Valid DATA segment with sequence number 5, out of order for a fresh
engine whose ackno is 1. -/
def c3seg : Segment :=
  withCksum { seqno := 5, ackno := 1, len := 23, cksum := 0, flags := 0, window := 0, data := [7, 8, 9] }

/-- Valid in-order DATA segment with sequence number 1 and 3 payload
bytes. -/
def c3wseg : Segment :=
  withCksum { seqno := 1, ackno := 1, len := 23, cksum := 0, flags := 0, window := 0, data := [7, 8, 9] }

/-- Engine that has acknowledged bytes up to 21, with last_ackno 11. -/
def c4st : ctcp_state :=
  { exInit with conn_state := { exInit.conn_state with ackno := 21, last_ackno := 11 } }

/-- Valid DATA segment replaying the long-acknowledged bytes 1..10. -/
def c4seg : Segment :=
  withCksum { seqno := 1, ackno := 1, len := 30, cksum := 0, flags := 0, window := 0,
              data := [0, 1, 2, 3, 4, 5, 6, 7, 8, 9] }

/-- Three one-byte reads against a 2-byte send window. -/
def c4reads : List ReadEv := [ReadEv.bytes [97], ReadEv.bytes [98], ReadEv.bytes [99]]

/-- Engine holding one undelivered 3-byte payload in the Receive
Queue. -/
def c5st : ctcp_state :=
  { exInit with
    conn_state := { exInit.conn_state with rcv_window_used := 3 },
    rx_state := [{ byte_used := 0, byte_left := 3, rx_buffer := [1, 2, 3] }] }

/-- Valid FIN segment (FIN set, ACK clear) with sequence number 1. -/
def c5seg : Segment :=
  withCksum { seqno := 1, ackno := 1, len := 20, cksum := 0, flags := FINc, window := 0, data := [] }

/-- Engine with one outstanding transmitted segment (tag 5), an armed
retransmit timer, counter 3 and time_out_num 2. -/
def c6st : ctcp_state :=
  { exInit with
    conn_state := { exInit.conn_state with next_seqno := 5, send_window_used := 4 },
    tx_state := [{ segment_next_seqno := 5, tx_buffer := [1, 2, 3, 4] }],
    ack_state := { time_out := true, counter := 3, time_out_num := 2, timer_overflow := 5 } }

/-- Valid pure ACK whose acknowledgement number 2 lies below the front
tag 5 of c6st: a stale acknowledgement. -/
def c6seg : Segment :=
  withCksum { seqno := 1, ackno := 2, len := 20, cksum := 0, flags := ACKc, window := 0, data := [] }

/-- Valid pure ACK with acknowledgement number 1. -/
def c6wseg : Segment :=
  withCksum { seqno := 1, ackno := 1, len := 20, cksum := 0, flags := ACKc, window := 0, data := [] }

/-- Valid DATA segment replaying the most recently acknowledged data of
c2st: seqno equal to last_ackno 1 and different from ackno 2. -/
def c7seg : Segment :=
  withCksum { seqno := 1, ackno := 1, len := 21, cksum := 0, flags := 0, window := 0, data := [7] }

/-- Engine one tick away from the sixth timeout, with timer_overflow 1
so the extra loop iteration caused by the continue statement immediately
overflows again. -/
def c8st : ctcp_state :=
  { exInit with
    ack_state := { time_out := true, counter := 0, time_out_num := 5, timer_overflow := 1 } }

/-- Engine one tick away from the sixth timeout with timer_overflow 2. -/
def c8stb : ctcp_state :=
  { exInit with
    ack_state := { time_out := true, counter := 1, time_out_num := 5, timer_overflow := 2 } }

/-- Engine that has acknowledged one 1-byte segment, used to exhibit a
concrete emitted datagram. -/
def c9st : ctcp_state :=
  { exInit with conn_state := { exInit.conn_state with ackno := 2, last_ackno := 1 } }

/-- Segment matching the duplicate-data pattern of c9st, so its receipt
emits exactly one duplicate ACK. -/
def c9seg : Segment :=
  { seqno := 1, ackno := 0, len := 21, cksum := 3, flags := 0, window := 0, data := [9] }

/-- Valid pure ACK segment acknowledging byte 1. -/
def c10seg : Segment :=
  withCksum { seqno := 1, ackno := 1, len := 20, cksum := 0, flags := ACKc, window := 0, data := [] }

theorem wrapSub16_eq_sub {a b : Nat} (hb : b ≤ a) (ha : a < M16) :
    wrapSub16 a b = a - b := by
  unfold wrapSub16 M16 at *
  omega

theorem outLoop_sp_nil (l : List RX_state) (c : Conn_state) :
    outLoop l c [] = (l, c, []) := by
  cases l with
  | nil => rfl
  | cons e r => simp [outLoop]

theorem tagsChain_of_allZero {l : List TX_state} (q : Nat)
    (h : l.all (fun x => x.segment_next_seqno == 0) = true) :
    tagsChain q l = true := by
  cases l with
  | nil => rfl
  | cons e r =>
    have he : e.segment_next_seqno = 0 := by
      have := (List.all_eq_true.mp h) e (by simp)
      simpa using this
    simp only [tagsChain, if_pos he]
    exact h

theorem sentSum_of_allZero {l : List TX_state}
    (h : l.all (fun x => x.segment_next_seqno == 0) = true) :
    sentSum l = 0 := by
  cases l with
  | nil => rfl
  | cons e r =>
    have he : e.segment_next_seqno = 0 := by
      have := (List.all_eq_true.mp h) e (by simp)
      simpa using this
    simp [sentSum, he]

theorem sentSum_append_zero (l : List TX_state) (b : List Nat) :
    sentSum (l ++ [{ segment_next_seqno := 0, tx_buffer := b }]) = sentSum l := by
  induction l with
  | nil => simp [sentSum]
  | cons e r ih =>
    by_cases he : e.segment_next_seqno = 0 <;> simp [sentSum, he, ih]

theorem tagsChain_append_zero {l : List TX_state} {q : Nat} (b : List Nat)
    (h : tagsChain q l = true) :
    tagsChain q (l ++ [{ segment_next_seqno := 0, tx_buffer := b }]) = true := by
  induction l generalizing q with
  | nil => simp [tagsChain]
  | cons e r ih =>
    by_cases he : e.segment_next_seqno = 0
    · simp only [tagsChain, if_pos he, List.all_eq_true] at h
      simp only [List.cons_append, tagsChain, if_pos he, List.all_eq_true]
      intro x hx
      have hx' : x = e ∨ x ∈ r ∨ x = { segment_next_seqno := 0, tx_buffer := b } := by
        simpa using hx
      rcases hx' with hx1 | hx2 | hx3
      · exact h x (hx1 ▸ List.mem_cons_self e r)
      · exact h x (List.mem_cons_of_mem e hx2)
      · simp [hx3]
    · simp only [tagsChain, if_neg he, Bool.and_eq_true] at h
      simp only [List.cons_append, tagsChain, if_neg he, Bool.and_eq_true]
      exact ⟨h.1, ih h.2⟩

theorem drainAck_eq_dropWhile (A : Nat) (l : List TX_state) (q u : Nat) :
    (drainAck A l q u).1 =
      l.dropWhile
        (fun e => decide (0 < e.segment_next_seqno) && decide (e.segment_next_seqno ≤ A)) := by
  induction l generalizing q u with
  | nil => rfl
  | cons e r ih =>
    by_cases hc : A ≥ e.segment_next_seqno ∧ e.segment_next_seqno > 0
    · have hb : (decide (0 < e.segment_next_seqno) && decide (e.segment_next_seqno ≤ A)) = true := by
        simp [hc.1, hc.2]
      simp only [drainAck, if_pos hc, List.dropWhile, hb]
      exact ih _ _
    · have hb : (decide (0 < e.segment_next_seqno) && decide (e.segment_next_seqno ≤ A)) = false := by
        rcases Decidable.not_and_iff_or_not.mp hc with h1 | h2
        · simp [Nat.lt_of_lt_of_le, show ¬ e.segment_next_seqno ≤ A from h1]
        · simp [show ¬ 0 < e.segment_next_seqno from h2]
      simp only [drainAck, if_neg hc, List.dropWhile, hb]

theorem drainAck_inv (A : Nat) {l : List TX_state} {q u : Nat}
    (hch : tagsChain q l = true) (hu : u = sentSum l) (hlt : u < M16) :
    tagsChain (drainAck A l q u).2.1 (drainAck A l q u).1 = true ∧
    (drainAck A l q u).2.2 = sentSum (drainAck A l q u).1 ∧
    (drainAck A l q u).2.2 ≤ u := by
  induction l generalizing q u with
  | nil =>
    simp only [drainAck]
    exact ⟨rfl, by simpa using hu, Nat.le_refl u⟩
  | cons e r ih =>
    by_cases hc : A ≥ e.segment_next_seqno ∧ e.segment_next_seqno > 0
    · have he : ¬ e.segment_next_seqno = 0 := by omega
      simp only [tagsChain, if_neg he, Bool.and_eq_true, beq_iff_eq] at hch
      have hsum : sentSum (e :: r) = e.tx_buffer.length + sentSum r := by
        simp [sentSum, he]
      have hle : e.tx_buffer.length ≤ u := by omega
      have hws : wrapSub16 u e.tx_buffer.length = sentSum r := by
        rw [wrapSub16_eq_sub hle hlt]; omega
      have hlt' : wrapSub16 u e.tx_buffer.length < M16 := by
        rw [hws]; omega
      have heq : drainAck A (e :: r) q u =
          drainAck A r e.segment_next_seqno (wrapSub16 u e.tx_buffer.length) := by
        simp only [drainAck, if_pos hc]
      rw [heq]
      have ih' := ih hch.2 hws hlt'
      exact ⟨ih'.1, ih'.2.1, le_trans ih'.2.2 (by rw [hws]; omega)⟩
    · have heq : drainAck A (e :: r) q u = (e :: r, q, u) := by
        simp only [drainAck, if_neg hc]
      rw [heq]
      exact ⟨hch, hu, Nat.le_refl u⟩

theorem outLoop_inv (l : List RX_state) (c : Conn_state) (sp : List Nat)
    (hr : c.rcv_window_used = rxSum l) (hlt : c.rcv_window_used < M16) :
    (outLoop l c sp).2.1.rcv_window_used = rxSum (outLoop l c sp).1 ∧
    (outLoop l c sp).2.1.rcv_window_used ≤ c.rcv_window_used ∧
    (outLoop l c sp).2.1.seqno = c.seqno ∧
    (outLoop l c sp).2.1.next_seqno = c.next_seqno ∧
    (outLoop l c sp).2.1.ackno = c.ackno ∧
    (outLoop l c sp).2.1.last_ackno = c.last_ackno ∧
    (outLoop l c sp).2.1.send_window = c.send_window ∧
    (outLoop l c sp).2.1.send_window_used = c.send_window_used ∧
    (outLoop l c sp).2.1.rcv_window = c.rcv_window := by
  induction l generalizing c sp with
  | nil =>
    exact ⟨hr, Nat.le_refl _, rfl, rfl, rfl, rfl, rfl, rfl, rfl⟩
  | cons e r ih =>
    by_cases hb : sp.headD 0 = 0 ∨ e.byte_left > sp.headD 0
    · have heq : outLoop (e :: r) c sp = (e :: r, c, []) := by
        simp only [outLoop, if_pos hb]
      rw [heq]
      exact ⟨hr, Nat.le_refl _, rfl, rfl, rfl, rfl, rfl, rfl, rfl⟩
    · have hsum : rxSum (e :: r) = e.byte_left + rxSum r := by simp [rxSum]
      have hle : e.byte_left ≤ c.rcv_window_used := by omega
      have hws : wrapSub16 c.rcv_window_used e.byte_left = rxSum r := by
        rw [wrapSub16_eq_sub hle hlt]; omega
      have heq : outLoop (e :: r) c sp =
          ((outLoop r { c with rcv_window_used := wrapSub16 c.rcv_window_used e.byte_left } sp.tail).1,
           (outLoop r { c with rcv_window_used := wrapSub16 c.rcv_window_used e.byte_left } sp.tail).2.1,
           ctcp_send_flags_seg { c with rcv_window_used := wrapSub16 c.rcv_window_used e.byte_left }
               ({ c with rcv_window_used := wrapSub16 c.rcv_window_used e.byte_left } : Conn_state).ackno ACKc ::
             (outLoop r { c with rcv_window_used := wrapSub16 c.rcv_window_used e.byte_left } sp.tail).2.2) := by
        simp only [outLoop, if_neg hb]
      have ih' := ih { c with rcv_window_used := wrapSub16 c.rcv_window_used e.byte_left }
        sp.tail (by simpa using hws) (by show wrapSub16 _ _ < M16; rw [hws]; omega)
      rw [heq]
      refine ⟨ih'.1, ?_, ih'.2.2.1, ih'.2.2.2.1, ih'.2.2.2.2.1, ih'.2.2.2.2.2.1,
        ih'.2.2.2.2.2.2.1, ih'.2.2.2.2.2.2.2.1, ih'.2.2.2.2.2.2.2.2⟩
      have h2 : wrapSub16 c.rcv_window_used e.byte_left ≤ c.rcv_window_used := by
        rw [hws]; omega
      exact le_trans ih'.2.1 h2

theorem sendGo_inv (l : List TX_state) (c : Conn_state)
    (hch : tagsChain c.next_seqno l = true)
    (hsum : sentSum l + c.send_window_used ≤ c.send_window)
    (hsw : c.send_window < M16)
    (hpos : 0 < c.next_seqno)
    (hnw : c.next_seqno + (c.send_window - c.send_window_used) < M32) :
    tagsChain c.next_seqno (sendGo l c).1 = true ∧
    (sendGo l c).2.1.send_window_used = c.send_window_used + sentSum (sendGo l c).1 ∧
    (sendGo l c).2.1.send_window_used ≤ c.send_window ∧
    (sendGo l c).2.1.seqno = c.seqno ∧
    (sendGo l c).2.1.ackno = c.ackno ∧
    (sendGo l c).2.1.last_ackno = c.last_ackno ∧
    (sendGo l c).2.1.send_window = c.send_window ∧
    (sendGo l c).2.1.rcv_window = c.rcv_window ∧
    (sendGo l c).2.1.rcv_window_used = c.rcv_window_used := by
  induction l generalizing c with
  | nil =>
    refine ⟨rfl, rfl, ?_, rfl, rfl, rfl, rfl, rfl, rfl⟩
    show c.send_window_used ≤ c.send_window
    omega
  | cons e r ih =>
    by_cases hf : e.tx_buffer.length + c.send_window_used > c.send_window
    · have heq : sendGo (e :: r) c = (e :: r, c, []) := by
        simp only [sendGo, if_pos hf]
      rw [heq]
      have he0 : e.segment_next_seqno = 0 := by
        by_contra he
        have : sentSum (e :: r) = e.tx_buffer.length + sentSum r := by
          simp [sentSum, he]
        omega
      have hs0 : sentSum (e :: r) = 0 := by simp [sentSum, he0]
      refine ⟨hch, ?_, ?_, rfl, rfl, rfl, rfl, rfl, rfl⟩
      · show c.send_window_used = c.send_window_used + sentSum (e :: r)
        omega
      · show c.send_window_used ≤ c.send_window
        omega
    · have hlen : e.tx_buffer.length + c.send_window_used ≤ c.send_window := by omega
      set cN : Conn_state :=
        { c with next_seqno := (c.next_seqno + e.tx_buffer.length) % M32,
                 send_window_used := (c.send_window_used + e.tx_buffer.length) % M16 } with hcN
      have heq : sendGo (e :: r) c =
          ({ e with segment_next_seqno := (c.next_seqno + e.tx_buffer.length) % M32 } :: (sendGo r cN).1,
           (sendGo r cN).2.1,
           ctcp_send_data_seg c e.tx_buffer :: (sendGo r cN).2.2) := by
        rw [hcN]
        simp only [sendGo, if_neg hf]
      have hcnN : cN.next_seqno = c.next_seqno + e.tx_buffer.length := by
        show (c.next_seqno + e.tx_buffer.length) % M32 = c.next_seqno + e.tx_buffer.length
        exact Nat.mod_eq_of_lt (by omega)
      have hcuN : cN.send_window_used = c.send_window_used + e.tx_buffer.length := by
        show (c.send_window_used + e.tx_buffer.length) % M16 = c.send_window_used + e.tx_buffer.length
        exact Nat.mod_eq_of_lt (by omega)
      have hcwN : cN.send_window = c.send_window := rfl
      have hch' : tagsChain cN.next_seqno r = true := by
        rw [hcnN]
        by_cases he : e.segment_next_seqno = 0
        · have hall : (e :: r).all (fun x => x.segment_next_seqno == 0) = true := by
            have := hch
            simpa [tagsChain, if_pos he] using this
          have hr : r.all (fun x => x.segment_next_seqno == 0) = true := by
            simp only [List.all_cons, Bool.and_eq_true] at hall
            exact hall.2
          exact tagsChain_of_allZero _ hr
        · simp only [tagsChain, if_neg he, Bool.and_eq_true, beq_iff_eq] at hch
          rw [← hch.1]
          exact hch.2
      have hsr : sentSum r + e.tx_buffer.length + c.send_window_used ≤ c.send_window := by
        by_cases he : e.segment_next_seqno = 0
        · have hall : (e :: r).all (fun x => x.segment_next_seqno == 0) = true := by
            have := hch
            simpa [tagsChain, if_pos he] using this
          have hr : r.all (fun x => x.segment_next_seqno == 0) = true := by
            simp only [List.all_cons, Bool.and_eq_true] at hall
            exact hall.2
          have := sentSum_of_allZero hr
          omega
        · have : sentSum (e :: r) = e.tx_buffer.length + sentSum r := by
            simp [sentSum, he]
          omega
      have ih' := ih cN hch' (by rw [hcuN, hcwN]; omega) (by rw [hcwN]; omega)
        (by rw [hcnN]; omega) (by rw [hcnN, hcuN, hcwN]; omega)
      rw [heq]
      have htag0 : ¬ (c.next_seqno + e.tx_buffer.length) % M32 = 0 := by
        rw [Nat.mod_eq_of_lt (show c.next_seqno + e.tx_buffer.length < M32 by omega)]
        omega
      refine ⟨?_, ?_, ?_, ?_, ?_, ?_, ?_, ?_, ?_⟩
      · show tagsChain c.next_seqno
          ({ e with segment_next_seqno := (c.next_seqno + e.tx_buffer.length) % M32 } :: (sendGo r cN).1) = true
        simp only [tagsChain, if_neg htag0, Bool.and_eq_true, beq_iff_eq]
        constructor
        · exact Nat.mod_eq_of_lt (by omega)
        · exact ih'.1
      · show (sendGo r cN).2.1.send_window_used =
          c.send_window_used +
            sentSum ({ e with segment_next_seqno := (c.next_seqno + e.tx_buffer.length) % M32 } :: (sendGo r cN).1)
        have hs : sentSum
            ({ e with segment_next_seqno := (c.next_seqno + e.tx_buffer.length) % M32 } :: (sendGo r cN).1) =
            e.tx_buffer.length + sentSum (sendGo r cN).1 := by
          simp [sentSum, htag0]
        rw [hs, ih'.2.1, hcuN]
        omega
      · show (sendGo r cN).2.1.send_window_used ≤ c.send_window
        rw [← hcwN]
        exact ih'.2.2.1
      · show (sendGo r cN).2.1.seqno = c.seqno
        rw [ih'.2.2.2.1, hcN]
      · show (sendGo r cN).2.1.ackno = c.ackno
        rw [ih'.2.2.2.2.1, hcN]
      · show (sendGo r cN).2.1.last_ackno = c.last_ackno
        rw [ih'.2.2.2.2.2.1, hcN]
      · show (sendGo r cN).2.1.send_window = c.send_window
        rw [ih'.2.2.2.2.2.2.1, hcN]
      · show (sendGo r cN).2.1.rcv_window = c.rcv_window
        rw [ih'.2.2.2.2.2.2.2.1, hcN]
      · show (sendGo r cN).2.1.rcv_window_used = c.rcv_window_used
        rw [ih'.2.2.2.2.2.2.2.2, hcN]

theorem rxSum_append (l : List RX_state) (e : RX_state) :
    rxSum (l ++ [e]) = rxSum l + e.byte_left := by
  simp [rxSum]

theorem sendPoss_inv (st : ctcp_state) (h : InvS st) (hw : NoWrap st) :
    InvS (ctcp_send_possible_data_segment st).1 ∧
    (ctcp_send_possible_data_segment st).1.conn_state.seqno = st.conn_state.seqno ∧
    (ctcp_send_possible_data_segment st).1.conn_state.send_window = st.conn_state.send_window ∧
    (ctcp_send_possible_data_segment st).1.rx_state = st.rx_state ∧
    (ctcp_send_possible_data_segment st).1.segment_teardown = st.segment_teardown := by
  obtain ⟨h1, h2, h3, h4, h5, h6, h7⟩ := h
  have hw1 : 0 < st.conn_state.seqno := hw.1
  have hw2 : st.conn_state.seqno + st.conn_state.send_window < M32 := hw.2
  have hg := sendGo_inv st.tx_state
    { st.conn_state with send_window_used := 0, next_seqno := st.conn_state.seqno }
    (by simpa using h1) (by simp; omega) (by simpa using h6) (by simpa using hw1)
    (by simp; omega)
  refine ⟨⟨?_, ?_, ?_, ?_, ?_, ?_, ?_⟩, ?_, ?_, rfl, ?_⟩
  · show tagsChain (sendGo _ _).2.1.seqno (sendGo _ _).1 = true
    rw [hg.2.2.2.1]
    exact hg.1
  · show (sendGo _ _).2.1.send_window_used = sentSum (sendGo _ _).1
    rw [hg.2.1]
    show 0 + _ = _
    exact Nat.zero_add _
  · show (sendGo _ _).2.1.send_window_used ≤ (sendGo _ _).2.1.send_window
    rw [hg.2.2.2.2.2.2.1]
    exact hg.2.2.1
  · show (sendGo _ _).2.1.rcv_window_used = rxSum st.rx_state
    rw [hg.2.2.2.2.2.2.2.2]
    exact h4
  · show (sendGo _ _).2.1.rcv_window_used ≤ (sendGo _ _).2.1.rcv_window
    rw [hg.2.2.2.2.2.2.2.2, hg.2.2.2.2.2.2.2.1]
    exact h5
  · show (sendGo _ _).2.1.send_window < M16
    rw [hg.2.2.2.2.2.2.1]
    exact h6
  · show (sendGo _ _).2.1.rcv_window < M16
    rw [hg.2.2.2.2.2.2.2.1]
    exact h7
  · exact hg.2.2.2.1
  · exact hg.2.2.2.2.2.2.1
  · rfl

theorem sendPoss_nowrap (st : ctcp_state) (h : InvS st) (hw : NoWrap st) :
    NoWrap (ctcp_send_possible_data_segment st).1 := by
  have hp := sendPoss_inv st h hw
  constructor
  · rw [hp.2.1]; exact hw.1
  · rw [hp.2.1, hp.2.2.1]; exact hw.2

theorem ctcp_output_inv (st : ctcp_state) (sp : List Nat) (h : InvS st) :
    InvS (ctcp_output st sp).1 ∧
    (ctcp_output st sp).1.conn_state.seqno = st.conn_state.seqno ∧
    (ctcp_output st sp).1.conn_state.send_window = st.conn_state.send_window ∧
    (ctcp_output st sp).1.tx_state = st.tx_state ∧
    (ctcp_output st sp).1.segment_teardown = st.segment_teardown := by
  obtain ⟨h1, h2, h3, h4, h5, h6, h7⟩ := h
  have ho := outLoop_inv st.rx_state st.conn_state sp h4 (by omega)
  refine ⟨⟨?_, ?_, ?_, ?_, ?_, ?_, ?_⟩, ?_, ?_, rfl, rfl⟩
  · show tagsChain (outLoop _ _ _).2.1.seqno st.tx_state = true
    rw [ho.2.2.1]
    exact h1
  · show (outLoop _ _ _).2.1.send_window_used = sentSum st.tx_state
    rw [ho.2.2.2.2.2.2.2.1]
    exact h2
  · show (outLoop _ _ _).2.1.send_window_used ≤ (outLoop _ _ _).2.1.send_window
    rw [ho.2.2.2.2.2.2.2.1, ho.2.2.2.2.2.2.1]
    exact h3
  · exact ho.1
  · show (outLoop _ _ _).2.1.rcv_window_used ≤ (outLoop _ _ _).2.1.rcv_window
    rw [ho.2.2.2.2.2.2.2.2]
    omega
  · show (outLoop _ _ _).2.1.send_window < M16
    rw [ho.2.2.2.2.2.2.1]
    exact h6
  · show (outLoop _ _ _).2.1.rcv_window < M16
    rw [ho.2.2.2.2.2.2.2.2]
    exact h7
  · exact ho.2.2.1
  · exact ho.2.2.2.2.2.2.1

theorem readLoop_inv (reads : List ReadEv) (st : ctcp_state) (h : InvS st) :
    InvS (readLoop reads st).1 ∧
    (readLoop reads st).1.conn_state = st.conn_state ∧
    (readLoop reads st).1.rx_state = st.rx_state := by
  induction reads generalizing st with
  | nil => exact ⟨h, rfl, rfl⟩
  | cons ev r ih =>
    cases ev with
    | bytes b =>
      by_cases h0 : b.length = 0
      · have heq : readLoop (ReadEv.bytes b :: r) st = (st, [], false) := by
          simp only [readLoop, if_pos h0]
        rw [heq]
        exact ⟨h, rfl, rfl⟩
      · by_cases htr : b.length > 14 ∧ b.take 14 = truncSentinel
        · have heq : readLoop (ReadEv.bytes b :: r) st = (st, [], false) := by
            simp only [readLoop, if_neg h0, if_pos htr]
          rw [heq]
          exact ⟨h, rfl, rfl⟩
        · have heq : readLoop (ReadEv.bytes b :: r) st =
              readLoop r { st with tx_state := st.tx_state ++ [{ segment_next_seqno := 0, tx_buffer := b }] } := by
            simp only [readLoop, if_neg h0, if_neg htr]
          rw [heq]
          obtain ⟨h1, h2, h3, h4, h5, h6, h7⟩ := h
          refine ih _ ⟨?_, ?_, h3, h4, h5, h6, h7⟩
          · exact tagsChain_append_zero b h1
          · rw [sentSum_append_zero]
            exact h2
    | eof =>
      by_cases hrx : st.rx_state.length > 0
      · have heq : readLoop (ReadEv.eof :: r) st = (st, [], true) := by
          simp only [readLoop, if_pos hrx]
        rw [heq]
        exact ⟨h, rfl, rfl⟩
      · by_cases htx : st.tx_state.length > 0
        · have heq : readLoop (ReadEv.eof :: r) st = (st, [], true) := by
            simp only [readLoop, if_neg hrx, if_pos htx]
          rw [heq]
          exact ⟨h, rfl, rfl⟩
        · have heq : readLoop (ReadEv.eof :: r) st =
              ({ st with segment_teardown := Teardown_state.ACTIVE_CLOSE,
                         ack_state := { st.ack_state with time_out := true } },
               [ctcp_send_flags_seg st.conn_state st.conn_state.ackno FINc], false) := by
            simp only [readLoop, if_neg hrx, if_neg htx]
          rw [heq]
          exact ⟨h, rfl, rfl⟩

theorem ctcp_read_inv (st : ctcp_state) (reads : List ReadEv) (st' : ctcp_state)
    (h : InvS st) (hw : NoWrap st)
    (hok : okState (ctcp_read st reads) = some st') : InvS st' := by
  have hl := readLoop_inv reads st h
  unfold ctcp_read at hok
  by_cases hd : (readLoop reads st).2.2
  · rw [if_pos hd] at hok
    simp [okState] at hok
  · rw [if_neg hd] at hok
    simp only [okState, Option.some.injEq] at hok
    have hw' : NoWrap (readLoop reads st).1 := by
      constructor
      · rw [hl.2.1]; exact hw.1
      · rw [hl.2.1]; exact hw.2
    have := sendPoss_inv (readLoop reads st).1 hl.1 hw'
    rw [← hok]
    exact this.1

theorem timerIter_inv (st : ctcp_state) (sp : List Nat) (h : InvS st) (hw : NoWrap st) :
    (InvS (timerIter st sp).1 ∧ NoWrap (timerIter st sp).1) ∧
    (timerIter st sp).1.conn_state.seqno = st.conn_state.seqno ∧
    (timerIter st sp).1.conn_state.send_window = st.conn_state.send_window := by
  simp only [timerIter]
  by_cases ha : st.ack_state.time_out
  · rw [if_pos ha]
    by_cases hc : (st.ack_state.counter + 1) % M8 = st.ack_state.timer_overflow
    · rw [if_pos hc]
      by_cases ht : (st.ack_state.time_out_num + 1) % M8 = 6
      · rw [if_pos ht]
        exact ⟨⟨h, hw⟩, rfl, rfl⟩
      · rw [if_neg ht]
        by_cases htd : st.segment_teardown = Teardown_state.ACTIVE_CLOSE ∨
            st.segment_teardown = Teardown_state.PASSIVE_CLOSE
        · rw [if_pos htd]
          exact ⟨⟨h, hw⟩, rfl, rfl⟩
        · rw [if_neg htd]
          have hp := sendPoss_inv { st with ack_state := { st.ack_state with counter := 0, time_out_num := (st.ack_state.time_out_num + 1) % M8 } } h hw
          have hn := sendPoss_nowrap { st with ack_state := { st.ack_state with counter := 0, time_out_num := (st.ack_state.time_out_num + 1) % M8 } } h hw
          exact ⟨⟨hp.1, hn⟩, hp.2.1, hp.2.2.1⟩
    · rw [if_neg hc]
      exact ⟨⟨h, hw⟩, rfl, rfl⟩
  · rw [if_neg ha]
    have hp := sendPoss_inv st h hw
    have hn := sendPoss_nowrap st h hw
    by_cases hrx : (ctcp_send_possible_data_segment st).1.rx_state.length > 0
    · rw [if_pos hrx]
      have ho := ctcp_output_inv (ctcp_send_possible_data_segment st).1 sp hp.1
      refine ⟨⟨ho.1, ?_⟩, ?_, ?_⟩
      · constructor
        · rw [ho.2.1, hp.2.1]; exact hw.1
        · rw [ho.2.1, hp.2.1, ho.2.2.1, hp.2.2.1]; exact hw.2
      · rw [ho.2.1, hp.2.1]
      · rw [ho.2.2.1, hp.2.2.1]
    · rw [if_neg hrx]
      exact ⟨⟨hp.1, hn⟩, hp.2.1, hp.2.2.1⟩

theorem engineTick_inv (st : ctcp_state) (sp : List Nat) (h : InvS st) (hw : NoWrap st) :
    InvS (engineTick st sp).1 := by
  unfold engineTick
  have h1 := timerIter_inv st sp h hw
  by_cases ha : (timerIter st sp).2.2
  · rw [if_pos ha]
    exact (timerIter_inv (timerIter st sp).1 sp h1.1.1 h1.1.2).1.1
  · rw [if_neg ha]
    exact h1.1.1

theorem ctcp_receive_ack_inv (st : ctcp_state) (seg : Segment) (st' : ctcp_state)
    (h : InvS st) (hok : okState (ctcp_receive_ack st seg) = some st') : InvS st' := by
  unfold ctcp_receive_ack at hok
  by_cases hpc : st.segment_teardown = Teardown_state.PASSIVE_CLOSE
  · rw [if_pos hpc] at hok
    simp [okState] at hok
  · rw [if_neg hpc] at hok
    obtain ⟨h1, h2, h3, h4, h5, h6, h7⟩ := h
    cases htx : st.tx_state with
    | nil =>
      rw [htx] at hok
      simp only [okState, Option.some.injEq] at hok
      rw [← hok]
      exact ⟨by rw [htx]; exact (htx ▸ h1), by rw [htx]; exact (htx ▸ h2), h3, h4, h5, h6, h7⟩
    | cons e r =>
      rw [htx] at hok h1 h2
      by_cases hge : seg.ackno ≥ e.segment_next_seqno
      · simp only [if_pos hge, okState, Option.some.injEq] at hok
        have hd := drainAck_inv seg.ackno (l := e :: r) (q := st.conn_state.seqno)
          (u := st.conn_state.send_window_used) h1 h2 (by omega)
        rw [← hok]
        refine ⟨hd.1, hd.2.1, ?_, h4, h5, h6, h7⟩
        show (drainAck seg.ackno (e :: r) st.conn_state.seqno st.conn_state.send_window_used).2.2 ≤
          st.conn_state.send_window
        have := hd.2.2
        omega
      · simp only [if_neg hge, okState, Option.some.injEq] at hok
        rw [← hok]
        exact ⟨by rw [htx]; exact h1, by rw [htx]; exact h2, h3, h4, h5, h6, h7⟩

theorem ctcp_receive_data_inv (st : ctcp_state) (seg : Segment) (len : Nat) (sp : List Nat)
    (h : InvS st) : InvS (ctcp_receive_data_segment st seg len sp).1 := by
  obtain ⟨h1, h2, h3, h4, h5, h6, h7⟩ := h
  simp only [ctcp_receive_data_segment]
  by_cases hfit : st.conn_state.rcv_window_used + (len - hdrSize) ≤ st.conn_state.rcv_window
  · rw [if_pos hfit]
    have hm : (st.conn_state.rcv_window_used + (len - hdrSize)) % M16 =
        st.conn_state.rcv_window_used + (len - hdrSize) :=
      Nat.mod_eq_of_lt (by omega)
    refine (ctcp_output_inv
      { st with
        conn_state := { st.conn_state with
          last_ackno := st.conn_state.ackno,
          ackno := (seg.seqno + seg.len - hdrSize) % M32,
          rcv_window_used := (st.conn_state.rcv_window_used + (len - hdrSize)) % M16 },
        rx_state := st.rx_state ++
          [{ byte_used := 0, byte_left := len - hdrSize, rx_buffer := seg.data.take (len - hdrSize) }] }
      sp ⟨h1, h2, h3, ?_, ?_, h6, h7⟩).1
    · show (st.conn_state.rcv_window_used + (len - hdrSize)) % M16 =
        rxSum (st.rx_state ++
          [{ byte_used := 0, byte_left := len - hdrSize, rx_buffer := seg.data.take (len - hdrSize) }])
      rw [hm, rxSum_append, ← h4]
    · show (st.conn_state.rcv_window_used + (len - hdrSize)) % M16 ≤ st.conn_state.rcv_window
      rw [hm]
      exact hfit
  · rw [if_neg hfit]
    exact (ctcp_output_inv st sp ⟨h1, h2, h3, h4, h5, h6, h7⟩).1

theorem ctcp_receive_inv (st : ctcp_state) (seg : Segment) (sp : List Nat) (st' : ctcp_state)
    (h : InvS st) (hok : okState (ctcp_receive st seg sp) = some st') : InvS st' := by
  unfold ctcp_receive at hok
  by_cases hdup : dupPattern st seg
  · rw [if_pos hdup] at hok
    simp only [okState, Option.some.injEq] at hok
    rwa [← hok]
  · rw [if_neg hdup] at hok
    by_cases hlen : recvLen seg ≠ seg.len
    · rw [if_pos hlen] at hok
      simp only [okState, Option.some.injEq] at hok
      rwa [← hok]
    · rw [if_neg hlen] at hok
      by_cases hck : seg.cksum ≠ cksumBytes (serializeSegment { seg with cksum := 0 })
      · rw [if_pos hck] at hok
        simp only [okState, Option.some.injEq] at hok
        rwa [← hok]
      · rw [if_neg hck] at hok
        by_cases hfin : finBit seg
        · rw [if_pos hfin] at hok
          by_cases hack : ackBit seg
          · rw [if_pos hack] at hok
            simp [okState] at hok
          · rw [if_neg hack] at hok
            simp only [ctcp_receive_fin_with_no_ack] at hok
            obtain ⟨h1, h2, h3, h4, h5, h6, h7⟩ := h
            by_cases htd : st.segment_teardown ≠ Teardown_state.ACTIVE_CLOSE
            · rw [if_pos htd] at hok
              by_cases hrx : st.rx_state.length > 0
              · rw [if_pos hrx] at hok
                simp [okState] at hok
              · rw [if_neg hrx] at hok
                simp only [okState, Option.some.injEq] at hok
                rw [← hok]
                exact ⟨h1, h2, h3, h4, h5, h6, h7⟩
            · rw [if_neg htd] at hok
              simp [okState] at hok
        · rw [if_neg hfin] at hok
          by_cases hack : ackBit seg
          · rw [if_pos hack] at hok
            exact ctcp_receive_ack_inv st seg st' h hok
          · rw [if_neg hack] at hok
            simp only [okState, Option.some.injEq] at hok
            rw [← hok]
            exact ctcp_receive_data_inv st seg (recvLen seg) sp h

theorem checksumOk_withCksum (s : Segment) : checksumOk (withCksum s) := by
  cases s
  rfl

theorem sendGo_out_ck (l : List TX_state) (c : Conn_state) :
    ∀ s ∈ (sendGo l c).2.2, checksumOk s := by
  induction l generalizing c with
  | nil =>
    intro s hs
    simp [sendGo] at hs
  | cons e r ih =>
    intro s hs
    by_cases hf : e.tx_buffer.length + c.send_window_used > c.send_window
    · have heq : sendGo (e :: r) c = (e :: r, c, []) := by
        simp only [sendGo, if_pos hf]
      rw [heq] at hs
      simp at hs
    · have heq : (sendGo (e :: r) c).2.2 =
          ctcp_send_data_seg c e.tx_buffer ::
            (sendGo r { c with next_seqno := (c.next_seqno + e.tx_buffer.length) % M32,
                               send_window_used := (c.send_window_used + e.tx_buffer.length) % M16 }).2.2 := by
        simp only [sendGo, if_neg hf]
      rw [heq] at hs
      rcases List.mem_cons.mp hs with h1 | h2
      · rw [h1]
        exact checksumOk_withCksum _
      · exact ih _ s h2

theorem outLoop_out_ck (l : List RX_state) (c : Conn_state) (sp : List Nat) :
    ∀ s ∈ (outLoop l c sp).2.2, checksumOk s := by
  induction l generalizing c sp with
  | nil =>
    intro s hs
    simp [outLoop] at hs
  | cons e r ih =>
    intro s hs
    by_cases hb : sp.headD 0 = 0 ∨ e.byte_left > sp.headD 0
    · have heq : outLoop (e :: r) c sp = (e :: r, c, []) := by
        simp only [outLoop, if_pos hb]
      rw [heq] at hs
      simp at hs
    · have heq : (outLoop (e :: r) c sp).2.2 =
          ctcp_send_flags_seg { c with rcv_window_used := wrapSub16 c.rcv_window_used e.byte_left }
              ({ c with rcv_window_used := wrapSub16 c.rcv_window_used e.byte_left } : Conn_state).ackno ACKc ::
            (outLoop r { c with rcv_window_used := wrapSub16 c.rcv_window_used e.byte_left } sp.tail).2.2 := by
        simp only [outLoop, if_neg hb]
      rw [heq] at hs
      rcases List.mem_cons.mp hs with h1 | h2
      · rw [h1]
        exact checksumOk_withCksum _
      · exact ih _ sp.tail s h2

theorem sendPoss_out_ck (st : ctcp_state) :
    ∀ s ∈ (ctcp_send_possible_data_segment st).2, checksumOk s := by
  intro s hs
  exact sendGo_out_ck st.tx_state _ s hs

theorem ctcp_output_out_ck (st : ctcp_state) (sp : List Nat) :
    ∀ s ∈ (ctcp_output st sp).2, checksumOk s := by
  intro s hs
  exact outLoop_out_ck st.rx_state st.conn_state sp s hs

theorem ctcp_receive_out_ck (st : ctcp_state) (seg : Segment) (sp : List Nat) :
    ∀ s ∈ hresOut (ctcp_receive st seg sp), checksumOk s := by
  intro s hs
  unfold ctcp_receive at hs
  by_cases hdup : dupPattern st seg
  · rw [if_pos hdup] at hs
    simp only [hresOut, List.mem_singleton] at hs
    rw [hs]
    exact checksumOk_withCksum _
  · rw [if_neg hdup] at hs
    by_cases hlen : recvLen seg ≠ seg.len
    · rw [if_pos hlen] at hs
      simp [hresOut] at hs
    · rw [if_neg hlen] at hs
      by_cases hck : seg.cksum ≠ cksumBytes (serializeSegment { seg with cksum := 0 })
      · rw [if_pos hck] at hs
        simp [hresOut] at hs
      · rw [if_neg hck] at hs
        by_cases hfin : finBit seg
        · rw [if_pos hfin] at hs
          by_cases hack : ackBit seg
          · rw [if_pos hack] at hs
            simp only [hresOut, List.mem_singleton] at hs
            rw [hs]
            exact checksumOk_withCksum _
          · rw [if_neg hack] at hs
            simp only [ctcp_receive_fin_with_no_ack] at hs
            by_cases htd : st.segment_teardown ≠ Teardown_state.ACTIVE_CLOSE
            · rw [if_pos htd] at hs
              by_cases hrx : st.rx_state.length > 0
              · rw [if_pos hrx] at hs
                simp only [hresOut, List.mem_singleton] at hs
                rw [hs]
                exact checksumOk_withCksum _
              · rw [if_neg hrx] at hs
                simp only [hresOut, List.mem_cons, List.mem_singleton] at hs
                rcases hs with h1 | h2
                · rw [h1]
                  exact checksumOk_withCksum _
                · rcases h2 with h2 | h3
                  · rw [h2]
                    exact checksumOk_withCksum _
                  · simp at h3
            · rw [if_neg htd] at hs
              simp only [hresOut, List.mem_singleton] at hs
              rw [hs]
              exact checksumOk_withCksum _
        · rw [if_neg hfin] at hs
          by_cases hack : ackBit seg
          · rw [if_pos hack] at hs
            unfold ctcp_receive_ack at hs
            by_cases hpc : st.segment_teardown = Teardown_state.PASSIVE_CLOSE
            · rw [if_pos hpc] at hs
              simp [hresOut] at hs
            · rw [if_neg hpc] at hs
              cases htx : st.tx_state with
              | nil =>
                rw [htx] at hs
                simp [hresOut] at hs
              | cons e r =>
                rw [htx] at hs
                by_cases hge : seg.ackno ≥ e.segment_next_seqno
                · simp only [if_pos hge, hresOut] at hs
                  simp at hs
                · simp only [if_neg hge, hresOut] at hs
                  simp at hs
          · rw [if_neg hack] at hs
            simp only [ctcp_receive_data_segment, hresOut] at hs
            exact outLoop_out_ck _ _ sp s hs

theorem readLoop_out_ck (reads : List ReadEv) (st : ctcp_state) :
    ∀ s ∈ (readLoop reads st).2.1, checksumOk s := by
  induction reads generalizing st with
  | nil =>
    intro s hs
    simp [readLoop] at hs
  | cons ev r ih =>
    intro s hs
    cases ev with
    | bytes b =>
      by_cases h0 : b.length = 0
      · rw [show readLoop (ReadEv.bytes b :: r) st = (st, [], false) from by
          simp only [readLoop, if_pos h0]] at hs
        simp at hs
      · by_cases htr : b.length > 14 ∧ b.take 14 = truncSentinel
        · rw [show readLoop (ReadEv.bytes b :: r) st = (st, [], false) from by
            simp only [readLoop, if_neg h0, if_pos htr]] at hs
          simp at hs
        · rw [show readLoop (ReadEv.bytes b :: r) st =
              readLoop r { st with tx_state := st.tx_state ++ [{ segment_next_seqno := 0, tx_buffer := b }] } from by
            simp only [readLoop, if_neg h0, if_neg htr]] at hs
          exact ih _ s hs
    | eof =>
      by_cases hrx : st.rx_state.length > 0
      · rw [show readLoop (ReadEv.eof :: r) st = (st, [], true) from by
          simp only [readLoop, if_pos hrx]] at hs
        simp at hs
      · by_cases htx : st.tx_state.length > 0
        · rw [show readLoop (ReadEv.eof :: r) st = (st, [], true) from by
            simp only [readLoop, if_neg hrx, if_pos htx]] at hs
          simp at hs
        · rw [show (readLoop (ReadEv.eof :: r) st).2.1 =
              [ctcp_send_flags_seg st.conn_state st.conn_state.ackno FINc] from by
            simp only [readLoop, if_neg hrx, if_neg htx]] at hs
          simp only [List.mem_singleton] at hs
          rw [hs]
          exact checksumOk_withCksum _

theorem ctcp_read_out_ck (st : ctcp_state) (reads : List ReadEv) :
    ∀ s ∈ hresOut (ctcp_read st reads), checksumOk s := by
  intro s hs
  unfold ctcp_read at hs
  by_cases hd : (readLoop reads st).2.2
  · rw [if_pos hd] at hs
    simp only [hresOut] at hs
    exact readLoop_out_ck reads st s hs
  · rw [if_neg hd] at hs
    simp only [hresOut, List.mem_append] at hs
    rcases hs with h1 | h2
    · exact readLoop_out_ck reads st s h1
    · exact sendPoss_out_ck _ s h2

theorem timerIter_out_ck (st : ctcp_state) (sp : List Nat) :
    ∀ s ∈ (timerIter st sp).2.1, checksumOk s := by
  intro s hs
  simp only [timerIter] at hs
  by_cases ha : st.ack_state.time_out
  · rw [if_pos ha] at hs
    by_cases hc : (st.ack_state.counter + 1) % M8 = st.ack_state.timer_overflow
    · rw [if_pos hc] at hs
      by_cases ht : (st.ack_state.time_out_num + 1) % M8 = 6
      · rw [if_pos ht] at hs
        simp only [List.mem_singleton] at hs
        rw [hs]
        exact checksumOk_withCksum _
      · rw [if_neg ht] at hs
        by_cases htd : st.segment_teardown = Teardown_state.ACTIVE_CLOSE ∨
            st.segment_teardown = Teardown_state.PASSIVE_CLOSE
        · rw [if_pos htd] at hs
          simp only [List.mem_singleton] at hs
          rw [hs]
          exact checksumOk_withCksum _
        · rw [if_neg htd] at hs
          exact sendPoss_out_ck _ s hs
    · rw [if_neg hc] at hs
      simp at hs
  · rw [if_neg ha] at hs
    by_cases hrx : (ctcp_send_possible_data_segment st).1.rx_state.length > 0
    · rw [if_pos hrx] at hs
      simp only [List.mem_append] at hs
      rcases hs with h1 | h2
      · exact sendPoss_out_ck _ s h1
      · exact ctcp_output_out_ck _ sp s h2
    · rw [if_neg hrx] at hs
      exact sendPoss_out_ck _ s hs

theorem engineTick_out_ck (st : ctcp_state) (sp : List Nat) :
    ∀ s ∈ (engineTick st sp).2, checksumOk s := by
  intro s hs
  unfold engineTick at hs
  by_cases ha : (timerIter st sp).2.2
  · rw [if_pos ha] at hs
    simp only [List.mem_append] at hs
    rcases hs with h1 | h2
    · exact timerIter_out_ck st sp s h1
    · exact timerIter_out_ck _ sp s h2
  · rw [if_neg ha] at hs
    exact timerIter_out_ck st sp s hs

theorem ctcp_output_sp_nil (st : ctcp_state) : ctcp_output st [] = (st, []) := by
  simp only [ctcp_output]
  rw [outLoop_sp_nil]

theorem timerIter_no_third (st : ctcp_state) (sp : List Nat)
    (h : (timerIter st sp).2.2 = true) :
    (timerIter (timerIter st sp).1 sp).2.2 = false := by
  have hs : (timerIter st sp).1.ack_state.time_out_num = 6 ∧
      (timerIter st sp).1.ack_state.time_out = true ∧
      (timerIter st sp).1.ack_state.counter = 0 := by
    simp only [timerIter] at h ⊢
    by_cases ha : st.ack_state.time_out
    · rw [if_pos ha] at h ⊢
      by_cases hc : (st.ack_state.counter + 1) % M8 = st.ack_state.timer_overflow
      · rw [if_pos hc] at h ⊢
        by_cases ht : (st.ack_state.time_out_num + 1) % M8 = 6
        · rw [if_pos ht] at h ⊢
          exact ⟨ht, rfl, rfl⟩
        · rw [if_neg ht] at h
          by_cases htd : st.segment_teardown = Teardown_state.ACTIVE_CLOSE ∨
              st.segment_teardown = Teardown_state.PASSIVE_CLOSE
          · rw [if_pos htd] at h
            simp at h
          · rw [if_neg htd] at h
            simp at h
      · rw [if_neg hc] at h
        simp at h
    · rw [if_neg ha] at h
      by_cases hrx : (ctcp_send_possible_data_segment st).1.rx_state.length > 0
      · rw [if_pos hrx] at h
        simp at h
      · rw [if_neg hrx] at h
        simp at h
  generalize hX : (timerIter st sp).1 = s1 at hs ⊢
  simp only [timerIter]
  rw [if_pos hs.2.1, hs.2.2, hs.1]
  have hc2 : (0 + 1) % M8 = 1 := by decide
  rw [hc2]
  by_cases hov : (1 : Nat) = s1.ack_state.timer_overflow
  · rw [if_pos hov]
    have h6 : ¬ ((6 : Nat) + 1) % M8 = 6 := by decide
    rw [if_neg h6]
    by_cases htd : s1.segment_teardown = Teardown_state.ACTIVE_CLOSE ∨
        s1.segment_teardown = Teardown_state.PASSIVE_CLOSE
    · rw [if_pos htd]
    · rw [if_neg htd]
  · rw [if_neg hov]

/-- C1: the claim states that any byte stream fed to the source on side
A is drained unchanged from the sink on side B over a lossless in-order
carrier, with the FIN handshake completing within a bounded number of
ticks.  The code cannot provide this: when end-of-source arrives while
the Send Queue still holds unsent data, ctcp_read enters the empty
busy-wait loop while(state->tx_state->length > 0); whose condition never
changes, so the handler never returns, no FIN is ever sent and the round
trip never completes.  This theorem evaluates the model at the 5-byte
stream hello followed by end-of-source: the read handler diverges. -/
theorem C1_round_trip_read_diverges :
    ctcp_read exInit c1reads = HRes.diverge [] ∧ exInit.rx_state.length = 0 := by
  constructor
  · decide
  · rfl

/-- C5: the claim states that every event handler terminates on every
input and every reachable state, in particular on_source_readable at
end-of-source and peer-FIN handling with non-empty queues.  The code
violates this: ctcp_receive_fin_with_no_ack contains the empty busy-wait
loop while(state->rx_state->length > 0); (line 409), which never
terminates when the Receive Queue holds an undelivered payload.  This
theorem evaluates the model at such a state receiving a valid FIN: the
handler diverges after emitting the ACK. -/
theorem C5_fin_handler_diverges :
    divergesB (ctcp_receive c5st c5seg []) = true ∧
    c5st.rx_state.length > 0 ∧
    finBit c5seg = true ∧ ackBit c5seg = false ∧
    c5st.segment_teardown = Teardown_state.NO_CLOSE := by
  decide

/-- C2 counterexample: the claim states that a segment whose checksum
does not verify produces no datagram.  The duplicate-data test runs
before the length and checksum checks, so the corrupted segment c2seg
(checksum field 0, true checksum different) whose sequence number equals
last_ackno and differs from ackno is answered with a duplicate ACK. -/
theorem C2_counterexample_corrupt_segment_acked :
    c2seg.cksum ≠ cksumBytes (serializeSegment { c2seg with cksum := 0 }) ∧
    recvLen c2seg = c2seg.len ∧
    hresOut (ctcp_receive c2st c2seg []) =
      [ctcp_send_flags_seg c2st.conn_state c2st.conn_state.last_ackno ACKc] ∧
    ackBit (ctcp_send_flags_seg c2st.conn_state c2st.conn_state.last_ackno ACKc) = true := by
  decide

/-- C2 amended: a received segment whose length field mismatches the
received byte count, or whose checksum does not verify, is silently
discarded with no emission and no state change, provided it does not
match the duplicate-data pattern, which is tested first and answered
with a duplicate ACK; and a DATA segment that does not fit the receive
window is itself discarded without an ACK, the engine merely running
delivery-to-sink for previously queued data. -/
theorem C2_transient_drop_amended (st : ctcp_state) (seg : Segment) (sp : List Nat)
    (hnd : ¬ dupPattern st seg) :
    (recvLen seg ≠ seg.len → ctcp_receive st seg sp = HRes.ok st []) ∧
    (recvLen seg = seg.len →
      seg.cksum ≠ cksumBytes (serializeSegment { seg with cksum := 0 }) →
      ctcp_receive st seg sp = HRes.ok st []) ∧
    (recvLen seg = seg.len →
      seg.cksum = cksumBytes (serializeSegment { seg with cksum := 0 }) →
      finBit seg = false → ackBit seg = false →
      ¬ (st.conn_state.rcv_window_used + (recvLen seg - hdrSize) ≤ st.conn_state.rcv_window) →
      ctcp_receive st seg sp = HRes.ok (ctcp_output st sp).1 (ctcp_output st sp).2) := by
  refine ⟨?_, ?_, ?_⟩
  · intro hlen
    simp only [ctcp_receive]
    rw [if_neg hnd, if_pos hlen]
  · intro hlen hck
    simp only [ctcp_receive]
    rw [if_neg hnd, if_neg (by simp [hlen]), if_pos hck]
  · intro hlen hck hfin hack hfit
    simp only [ctcp_receive]
    rw [if_neg hnd, if_neg (by simp [hlen]), if_neg (by simp [hck]),
      if_neg (by simp [hfin]), if_neg (by simp [hack])]
    simp only [ctcp_receive_data_segment]
    rw [if_neg hfit]

theorem C2_transient_drop_amended_witness :
    (¬ dupPattern exInit c2wseg ∧ recvLen c2wseg ≠ c2wseg.len) ∧
    ctcp_receive exInit c2wseg [] = HRes.ok exInit [] :=
  ⟨⟨by decide, by decide⟩,
    (C2_transient_drop_amended exInit c2wseg [] (by decide)).1 (by decide)⟩

/-- C3 counterexample: the claim states that a DATA segment is appended
to the Receive Queue only if its sequence number equals the current
ackno.  The valid out-of-order segment c3seg (seqno 5) is appended to
the Receive Queue of a fresh engine whose ackno is 1. -/
theorem C3_counterexample_out_of_order_accepted :
    c3seg.seqno ≠ exInit.conn_state.ackno ∧
    (okState (ctcp_receive exInit c3seg [])).map (fun s => s.rx_state.length) = some 1 ∧
    exInit.rx_state.length = 0 := by
  decide

/-- C3 amended: a valid DATA segment that does not match the
duplicate-data pattern is appended to the Receive Queue exactly when its
payload fits the receive window; the sequence number is never compared
with ackno, and on acceptance ackno is overwritten with
seqno + payload length regardless of order.  Stated with an exhausted
sink (no bufspace) so that delivery does not consume the queue. -/
theorem C3_append_iff_window_fits (st : ctcp_state) (seg : Segment)
    (hnd : ¬ dupPattern st seg)
    (hlen : recvLen seg = seg.len)
    (hck : seg.cksum = cksumBytes (serializeSegment { seg with cksum := 0 }))
    (hfin : finBit seg = false) (hack : ackBit seg = false) :
    (st.conn_state.rcv_window_used + (recvLen seg - hdrSize) ≤ st.conn_state.rcv_window →
      ctcp_receive st seg [] = HRes.ok
        { st with
          conn_state := { st.conn_state with
            last_ackno := st.conn_state.ackno,
            ackno := (seg.seqno + seg.len - hdrSize) % M32,
            rcv_window_used := (st.conn_state.rcv_window_used + (recvLen seg - hdrSize)) % M16 },
          rx_state := st.rx_state ++
            [{ byte_used := 0, byte_left := recvLen seg - hdrSize,
               rx_buffer := seg.data.take (recvLen seg - hdrSize) }] } []) ∧
    (¬ (st.conn_state.rcv_window_used + (recvLen seg - hdrSize) ≤ st.conn_state.rcv_window) →
      ctcp_receive st seg [] = HRes.ok st []) := by
  constructor
  · intro hfit
    simp only [ctcp_receive]
    rw [if_neg hnd, if_neg (by simp [hlen]), if_neg (by simp [hck]),
      if_neg (by simp [hfin]), if_neg (by simp [hack])]
    simp only [ctcp_receive_data_segment]
    rw [if_pos hfit, ctcp_output_sp_nil]
  · intro hfit
    simp only [ctcp_receive]
    rw [if_neg hnd, if_neg (by simp [hlen]), if_neg (by simp [hck]),
      if_neg (by simp [hfin]), if_neg (by simp [hack])]
    simp only [ctcp_receive_data_segment]
    rw [if_neg hfit, ctcp_output_sp_nil]

theorem C3_append_iff_window_fits_witness :
    (¬ dupPattern exInit c3wseg ∧ recvLen c3wseg = c3wseg.len ∧
      c3wseg.cksum = cksumBytes (serializeSegment { c3wseg with cksum := 0 }) ∧
      finBit c3wseg = false ∧ ackBit c3wseg = false ∧
      exInit.conn_state.rcv_window_used + (recvLen c3wseg - hdrSize) ≤ exInit.conn_state.rcv_window) ∧
    (okState (ctcp_receive exInit c3wseg [])).map (fun s => s.rx_state.length) = some 1 :=
  ⟨⟨by decide, by decide, by decide, by decide, by decide, by decide⟩, by
    rw [(C3_append_iff_window_fits exInit c3wseg (by decide) (by decide) (by decide)
      (by decide) (by decide)).1 (by decide)]
    decide⟩

/-- C4 counterexample: the claim states that every handler preserves the
invariants, among them that ackno is monotonically non-decreasing, that
last_ackno ≤ ackno, and that the Send Queue tags form a strictly
increasing sequence.  First conjunct block: receiving the stale but
valid DATA segment c4seg (seqno 1) in state c4st (ackno 21, last_ackno
11) is accepted and rewinds ackno to 11 while setting last_ackno to 21,
so ackno decreases and last_ackno exceeds ackno.  Second block: reading
three one-byte chunks against a two-byte send window leaves the Send
Queue tags (2, 3, 0), which is not strictly increasing, the third
element being still untransmitted. -/
theorem C4_counterexample_invariants_broken :
    ((okState (ctcp_receive c4st c4seg [])).map
        (fun s => (s.conn_state.ackno, s.conn_state.last_ackno)) = some (11, 21) ∧
      c4st.conn_state.ackno = 21 ∧ c4st.conn_state.last_ackno = 11) ∧
    ((okState (ctcp_read (ctcp_init 2 2000 200 40) c4reads)).map
        (fun s => s.tx_state.map (fun e => e.segment_next_seqno)) = some [2, 3, 0] ∧
      ¬ ([2, 3, 0] : List Nat).Pairwise (fun a b => a < b)) := by
  constructor
  · refine ⟨by decide, by decide, by decide⟩
  · refine ⟨by decide, by decide⟩

/-- C4 amended: every event handler (datagram reception, delivery to
sink, source reading, timer tick for one engine) preserves the
consistency invariant InvS, whose conjuncts include
send_window_used ≤ send_window and rcv_window_used ≤ rcv_window,
provided the state is consistent (used counters equal the queue sums,
the tags have the chain shape) and sequence numbers do not wrap
(NoWrap).  The monotonicity of ackno, last_ackno ≤ ackno and the
strictly-increasing-tags clauses of the original claim are dropped, as
the counterexample shows them false. -/
theorem C4_window_invariants_preserved (st : ctcp_state) (h : InvS st) (hw : NoWrap st) :
    (∀ seg sp st', okState (ctcp_receive st seg sp) = some st' → InvS st') ∧
    (∀ sp, InvS (ctcp_output st sp).1) ∧
    (∀ reads st', okState (ctcp_read st reads) = some st' → InvS st') ∧
    (∀ sp, InvS (engineTick st sp).1) :=
  ⟨fun seg sp st' hok => ctcp_receive_inv st seg sp st' h hok,
   fun sp => (ctcp_output_inv st sp h).1,
   fun reads st' hok => ctcp_read_inv st reads st' h hw hok,
   fun sp => engineTick_inv st sp h hw⟩

theorem C4_window_invariants_preserved_witness :
    (InvS c6st ∧ NoWrap c6st) ∧
    (okState (ctcp_receive c6st c6seg []) = some c6st → InvS c6st) ∧
    InvS (ctcp_output c6st []).1 ∧ InvS (engineTick c6st []).1 :=
  ⟨⟨by decide, by decide⟩,
    fun hok => (C4_window_invariants_preserved c6st (by decide) (by decide)).1 c6seg [] c6st hok,
    (C4_window_invariants_preserved c6st (by decide) (by decide)).2.1 [],
    (C4_window_invariants_preserved c6st (by decide) (by decide)).2.2.2 []⟩

/-- C6 counterexample: the claim states that handling a pure ACK while
teardown is NONE resets counter and time_out_num to 0.  The code resets
them only when the Send Queue is non-empty and the acknowledgement
covers the front tag: the stale but valid ACK c6seg (ackno 2, below the
front tag 5) leaves counter at 3 and time_out_num at 2. -/
theorem C6_counterexample_stale_ack_no_reset :
    c6st.segment_teardown = Teardown_state.NO_CLOSE ∧
    ackBit c6seg = true ∧ finBit c6seg = false ∧
    (okState (ctcp_receive c6st c6seg [])).map
      (fun s => (s.ack_state.counter, s.ack_state.time_out_num)) = some (3, 2) ∧
    (3, 2) ≠ ((0 : Nat), (0 : Nat)) := by
  decide

/-- C6 amended: on a valid pure ACK with teardown NONE, when the Send
Queue is non-empty and the acknowledgement number covers the front tag,
the engine drops exactly the maximal front run of elements with positive
tags not exceeding the acknowledgement (the dropWhile characterisation),
advances seqno and decrements send_window_used along the drained run,
disarms the retransmit timer exactly when the acknowledgement equals
next_seqno, and resets counter and time_out_num; an ACK arriving at an
empty Send Queue, or one below the front tag, leaves the whole state
unchanged, the resets included. -/
theorem C6_cumulative_ack_amended (st : ctcp_state) (seg : Segment) (sp : List Nat)
    (htd : st.segment_teardown = Teardown_state.NO_CLOSE)
    (hack : ackBit seg = true) (hfin : finBit seg = false)
    (hlen : recvLen seg = seg.len)
    (hck : seg.cksum = cksumBytes (serializeSegment { seg with cksum := 0 })) :
    (st.tx_state = [] → ctcp_receive st seg sp = HRes.ok st []) ∧
    (∀ e r, st.tx_state = e :: r →
      (seg.ackno ≥ e.segment_next_seqno →
        ctcp_receive st seg sp = HRes.ok
          { st with
            conn_state := { st.conn_state with
              seqno := (drainAck seg.ackno (e :: r) st.conn_state.seqno
                st.conn_state.send_window_used).2.1,
              send_window_used := (drainAck seg.ackno (e :: r) st.conn_state.seqno
                st.conn_state.send_window_used).2.2 },
            tx_state := (drainAck seg.ackno (e :: r) st.conn_state.seqno
              st.conn_state.send_window_used).1,
            ack_state := { st.ack_state with
              time_out := if seg.ackno = st.conn_state.next_seqno then false
                          else st.ack_state.time_out,
              counter := 0, time_out_num := 0 } } []) ∧
      (¬ seg.ackno ≥ e.segment_next_seqno → ctcp_receive st seg sp = HRes.ok st [])) ∧
    (∀ A l q u, (drainAck A l q u).1 =
      l.dropWhile (fun x => decide (0 < x.segment_next_seqno) &&
        decide (x.segment_next_seqno ≤ A))) := by
  have hnd : ¬ dupPattern st seg := by
    simp [dupPattern, hack]
  have hpc : ¬ st.segment_teardown = Teardown_state.PASSIVE_CLOSE := by
    rw [htd]
    decide
  refine ⟨?_, ?_, fun A l q u => drainAck_eq_dropWhile A l q u⟩
  · intro htx
    simp only [ctcp_receive]
    rw [if_neg hnd, if_neg (by simp [hlen]), if_neg (by simp [hck]),
      if_neg (by simp [hfin]), if_pos hack]
    simp only [ctcp_receive_ack]
    rw [if_neg hpc, htx]
  · intro e r htx
    constructor
    · intro hge
      simp only [ctcp_receive]
      rw [if_neg hnd, if_neg (by simp [hlen]), if_neg (by simp [hck]),
        if_neg (by simp [hfin]), if_pos hack]
      simp only [ctcp_receive_ack]
      rw [if_neg hpc, htx]
      simp only [if_pos hge]
    · intro hge
      simp only [ctcp_receive]
      rw [if_neg hnd, if_neg (by simp [hlen]), if_neg (by simp [hck]),
        if_neg (by simp [hfin]), if_pos hack]
      simp only [ctcp_receive_ack]
      rw [if_neg hpc, htx]
      simp only [if_neg hge]

theorem C6_cumulative_ack_amended_witness :
    (exInit.segment_teardown = Teardown_state.NO_CLOSE ∧ ackBit c6wseg = true ∧
      finBit c6wseg = false ∧ recvLen c6wseg = c6wseg.len ∧
      c6wseg.cksum = cksumBytes (serializeSegment { c6wseg with cksum := 0 }) ∧
      exInit.tx_state = []) ∧
    ctcp_receive exInit c6wseg [] = HRes.ok exInit [] :=
  ⟨⟨by decide, by decide, by decide, by decide, by decide, rfl⟩,
    (C6_cumulative_ack_amended exInit c6wseg [] (by decide) (by decide) (by decide)
      (by decide) (by decide)).1 rfl⟩

/-- C7 counterexample: the claim states that replaying any
already-acknowledged DATA segment leaves counters and queues unchanged
except for one duplicate ACK.  Only the most recently acknowledged
sequence number (last_ackno) is recognised: replaying the older
acknowledged segment c4seg (seqno 1, acknowledged long ago by state
c4st whose ackno is 21 and last_ackno 11) is processed as fresh data,
growing the Receive Queue and rewinding ackno, with no duplicate ACK. -/
theorem C7_counterexample_old_replay_processed :
    c4seg.seqno < c4st.conn_state.ackno ∧
    c4seg.seqno ≠ c4st.conn_state.last_ackno ∧
    (okState (ctcp_receive c4st c4seg [])).map
      (fun s => (s.rx_state.length, s.conn_state.ackno)) = some (1, 11) ∧
    c4st.rx_state.length = 0 := by
  decide

/-- C7 amended: replaying the most recently acknowledged DATA segment
(sequence number equal to last_ackno and different from ackno, ACK bit
clear) leaves the entire engine state unchanged and emits exactly one
duplicate ACK carrying last_ackno; this duplicate path is taken before
any validation.  Older acknowledged segments are not recognised and are
reprocessed as fresh data. -/
theorem C7_duplicate_of_last_ack (st : ctcp_state) (seg : Segment) (sp : List Nat)
    (h1 : seg.seqno ≠ st.conn_state.ackno)
    (h2 : seg.seqno = st.conn_state.last_ackno)
    (h3 : ackBit seg = false) :
    ctcp_receive st seg sp =
      HRes.ok st [ctcp_send_flags_seg st.conn_state st.conn_state.last_ackno ACKc] := by
  simp only [ctcp_receive]
  rw [if_pos (show dupPattern st seg from ⟨h1, h2, by simp [h3]⟩)]

theorem C7_duplicate_of_last_ack_witness :
    (c2st.conn_state.ackno = 2 ∧ c7seg.seqno = 1 ∧ c2st.conn_state.last_ackno = 1 ∧
      ackBit c7seg = false) ∧
    ctcp_receive c2st c7seg [] =
      HRes.ok c2st [ctcp_send_flags_seg c2st.conn_state c2st.conn_state.last_ackno ACKc] :=
  ⟨⟨rfl, rfl, rfl, by decide⟩,
    C7_duplicate_of_last_ack c2st c7seg [] (by decide) (by decide) (by decide)⟩

/-- C8: the claim states that in one timer tick each armed engine has
its counter incremented exactly once, and that on the tick where
time_out_num reaches 6 the engine emits exactly one FIN, enters
ACTIVE_CLOSING and the walk moves to the next engine without further
processing of this engine.  The continue statement in the sixth-timeout
branch of ctcp_timer skips the cur_state advance, so the same engine is
processed again within the same tick.  With timer_overflow 1 (c8st) the
extra iteration overflows again: two FINs are emitted and time_out_num
ends at 7.  With timer_overflow 2 (c8stb) the counter, just reset to 0,
is incremented a second time and ends at 1. -/
theorem C8_sixth_timeout_continue_bug :
    ((engineTick c8st []).2.length = 2 ∧
      (engineTick c8st []).2.all (fun s => finBit s && !ackBit s) = true ∧
      (engineTick c8st []).1.ack_state.time_out_num = 7 ∧
      (engineTick c8st []).1.segment_teardown = Teardown_state.ACTIVE_CLOSE) ∧
    ((engineTick c8stb []).2.length = 1 ∧
      (engineTick c8stb []).1.ack_state.counter = 1 ∧
      (engineTick c8stb []).1.ack_state.time_out_num = 6) := by
  decide

/-- C9: every datagram the engine emits carries a checksum equal to the
16-bit ones-complement checksum recomputed over its serialised bytes
with the cksum field zeroed.  Both segment constructors guarantee this,
and every emission of the datagram handler, the read handler, the timer
tick and the delivery routine satisfies it. -/
theorem C9_emitted_checksums_verify :
    (∀ c a f, checksumOk (ctcp_send_flags_seg c a f)) ∧
    (∀ c b, checksumOk (ctcp_send_data_seg c b)) ∧
    (∀ st seg sp, ∀ s ∈ hresOut (ctcp_receive st seg sp), checksumOk s) ∧
    (∀ st reads, ∀ s ∈ hresOut (ctcp_read st reads), checksumOk s) ∧
    (∀ st sp, ∀ s ∈ (engineTick st sp).2, checksumOk s) ∧
    (∀ st sp, ∀ s ∈ (ctcp_output st sp).2, checksumOk s) :=
  ⟨fun c a f => checksumOk_withCksum _,
   fun c b => checksumOk_withCksum _,
   fun st seg sp => ctcp_receive_out_ck st seg sp,
   fun st reads => ctcp_read_out_ck st reads,
   fun st sp => engineTick_out_ck st sp,
   fun st sp => ctcp_output_out_ck st sp⟩

theorem C9_emitted_checksums_verify_witness :
    (ctcp_send_flags_seg c9st.conn_state c9st.conn_state.last_ackno ACKc ∈
      hresOut (ctcp_receive c9st c9seg [])) ∧
    checksumOk (ctcp_send_flags_seg c9st.conn_state c9st.conn_state.last_ackno ACKc) :=
  ⟨by decide,
    C9_emitted_checksums_verify.2.2.1 c9st c9seg []
      (ctcp_send_flags_seg c9st.conn_state c9st.conn_state.last_ackno ACKc) (by decide)⟩

/-- C10: handling a pure ACK segment (ACK bit set, FIN clear) while
teardown is NONE never changes ackno, last_ackno, rcv_window_used or the
Receive Queue, never destroys the engine and never diverges; and when
the Send Queue is empty such a segment leaves the entire engine state
unchanged, the retransmit timer flag, counter and time_out_num
included, and emits nothing. -/
theorem C10_pure_ack_frame (st : ctcp_state) (seg : Segment) (sp : List Nat)
    (htd : st.segment_teardown = Teardown_state.NO_CLOSE)
    (hack : ackBit seg = true) (hfin : finBit seg = false) :
    (∀ st' out, ctcp_receive st seg sp = HRes.ok st' out →
      st'.conn_state.ackno = st.conn_state.ackno ∧
      st'.conn_state.last_ackno = st.conn_state.last_ackno ∧
      st'.conn_state.rcv_window_used = st.conn_state.rcv_window_used ∧
      st'.rx_state = st.rx_state) ∧
    okState (ctcp_receive st seg sp) ≠ none ∧
    (st.tx_state = [] → ctcp_receive st seg sp = HRes.ok st []) := by
  have hnd : ¬ dupPattern st seg := by
    simp [dupPattern, hack]
  have hpc : ¬ st.segment_teardown = Teardown_state.PASSIVE_CLOSE := by
    rw [htd]
    decide
  by_cases hlen : recvLen seg ≠ seg.len
  · have heq : ctcp_receive st seg sp = HRes.ok st [] := by
      simp only [ctcp_receive]
      rw [if_neg hnd, if_pos hlen]
    rw [heq]
    refine ⟨?_, by simp [okState], fun _ => rfl⟩
    intro st' out hok
    cases hok
    exact ⟨rfl, rfl, rfl, rfl⟩
  · by_cases hck : seg.cksum ≠ cksumBytes (serializeSegment { seg with cksum := 0 })
    · have heq : ctcp_receive st seg sp = HRes.ok st [] := by
        simp only [ctcp_receive]
        rw [if_neg hnd, if_neg hlen, if_pos hck]
      rw [heq]
      refine ⟨?_, by simp [okState], fun _ => rfl⟩
      intro st' out hok
      cases hok
      exact ⟨rfl, rfl, rfl, rfl⟩
    · have heq0 : ctcp_receive st seg sp = ctcp_receive_ack st seg := by
        simp only [ctcp_receive]
        rw [if_neg hnd, if_neg hlen, if_neg hck, if_neg (by simp [hfin]), if_pos hack]
      rw [heq0]
      cases htx : st.tx_state with
      | nil =>
        have heq : ctcp_receive_ack st seg = HRes.ok st [] := by
          simp only [ctcp_receive_ack]
          rw [if_neg hpc, htx]
        rw [heq]
        refine ⟨?_, by simp [okState], fun _ => rfl⟩
        intro st' out hok
        cases hok
        exact ⟨rfl, rfl, rfl, rfl⟩
      | cons e r =>
        by_cases hge : seg.ackno ≥ e.segment_next_seqno
        · have heq : ctcp_receive_ack st seg = HRes.ok
              { st with
                conn_state := { st.conn_state with
                  seqno := (drainAck seg.ackno (e :: r) st.conn_state.seqno
                    st.conn_state.send_window_used).2.1,
                  send_window_used := (drainAck seg.ackno (e :: r) st.conn_state.seqno
                    st.conn_state.send_window_used).2.2 },
                tx_state := (drainAck seg.ackno (e :: r) st.conn_state.seqno
                  st.conn_state.send_window_used).1,
                ack_state := { st.ack_state with
                  time_out := if seg.ackno = st.conn_state.next_seqno then false
                              else st.ack_state.time_out,
                  counter := 0, time_out_num := 0 } } [] := by
            simp only [ctcp_receive_ack]
            rw [if_neg hpc, htx]
            simp only [if_pos hge]
          rw [heq]
          refine ⟨?_, by simp [okState], ?_⟩
          · intro st' out hok
            cases hok
            exact ⟨rfl, rfl, rfl, rfl⟩
          · intro htx0
            exact List.noConfusion htx0
        · have heq : ctcp_receive_ack st seg = HRes.ok st [] := by
            simp only [ctcp_receive_ack]
            rw [if_neg hpc, htx]
            simp only [if_neg hge]
          rw [heq]
          refine ⟨?_, by simp [okState], fun _ => rfl⟩
          intro st' out hok
          cases hok
          exact ⟨rfl, rfl, rfl, rfl⟩

theorem C10_pure_ack_frame_witness :
    (c6st.segment_teardown = Teardown_state.NO_CLOSE ∧ ackBit c6wseg = true ∧
      finBit c6wseg = false) ∧
    okState (ctcp_receive c6st c6wseg []) ≠ none :=
  ⟨⟨by decide, by decide, by decide⟩,
    (C10_pure_ack_frame c6st c6wseg [] (by decide) (by decide) (by decide)).2.1⟩

end CTCP
